import Mathlib

/-!
Shallow embedding of the JavaScript dependency-parser core found in
`crates/rspack_plugin_javascript/src/visitors/dependency/parser/mod.rs`.

The parser operations (`tag_variable`, `define_variable`,
`get_free_info_from_variable`, `call_hooks_name`,
`extract_member_expression_chain`, `object_and_members_to_name`,
`get_member_expression_info`, `detect_mode`, `set_strict`,
`walk_program`, `evaluate_expression`, `evaluating`) are translated from
that source file.  Supporting types that the source file imports from
sibling crates that are not part of this excerpt (the scope store in
`scope_info`, the evaluated-expression model in `utils::eval`, the span
helpers in `SpanExt`) are modelled from the specification; each such
definition says so in its doc comment.
-/

/-- Modelled from the spec: a source span with one-based byte offsets
`lo` and `hi`, as produced by the external syntax parser (the `Span`
type of the tree consumed here). -/
structure Span where
  lo : Nat
  hi : Nat
deriving Repr, DecidableEq

/-- Modelled from the spec: the `SpanExt::real_lo` helper, the one-based
span start made zero-based. -/
def Span.real_lo (s : Span) : Nat := s.lo - 1

/-- Modelled from the spec: the `SpanExt::real_hi` helper, the one-based
span end made zero-based. -/
def Span.real_hi (s : Span) : Nat := s.hi - 1

/-- Modelled from the spec: an entry of the ignored-span set, a
`[start, end)` source range (`DependencyLocation::new(start, end)`).
The second field is named `stop` because `end` is reserved. -/
structure DependencyLocation where
  start : Nat
  stop : Nat
deriving Repr, DecidableEq

/-- Modelled from the spec: the free-name state of a binding — `True`
is "free but unnamed/unresolved to a literal string", `String name` is
"free and known to resolve to the literal external name". -/
inductive FreeName where
  | True
  | String (s : String)
deriving Repr, DecidableEq

/-- Modelled from the spec: a tag chain node, most-recent first: an
opaque label, opaque plugin-supplied payload data (kept here in its
serialized form), and a link to the previous tag for the same binding. -/
inductive TagInfo where
  | mk (tag : String) (data : Option String) (next : Option TagInfo)

/-- Label of a tag chain node. -/
def TagInfo.tag : TagInfo → String
  | .mk t _ _ => t

/-- Payload of a tag chain node. -/
def TagInfo.data : TagInfo → Option String
  | .mk _ d _ => d

/-- Link to the previous tag of the same binding. -/
def TagInfo.next : TagInfo → Option TagInfo
  | .mk _ _ n => n

/-- Number of nodes in a tag chain, following the `next` links. -/
def TagInfo.chainLength : TagInfo → Nat
  | .mk _ _ none => 1
  | .mk _ _ (some n) => n.chainLength + 1

/-- Label of the last (oldest) node of a tag chain. -/
def TagInfo.lastTag : TagInfo → String
  | .mk t _ none => t
  | .mk _ _ (some n) => n.lastTag

abbrev ScopeInfoId := Nat
abbrev VariableInfoId := Nat

/-- Modelled from the spec: a named binding, unique per (scope, name)
pair, holding the scope where it was introduced, its free-name state
and its optional tag chain.  The `id` realises the binding identity
used by `ExportedVariableInfo`; it is assigned by the store on
insertion. -/
structure VariableInfo where
  id : VariableInfoId
  declared_scope : ScopeInfoId
  free_name : Option FreeName
  tag_info : Option TagInfo

/-- Modelled from the spec: `VariableInfo::new(declared_scope,
free_name, tag_info)`; the store supplies the fresh `id` on insertion,
so the constructor is curried over it. -/
def VariableInfo.new (declared_scope : ScopeInfoId) (free_name : Option FreeName)
    (tag_info : Option TagInfo) : VariableInfoId → VariableInfo :=
  fun id => ⟨id, declared_scope, free_name, tag_info⟩

/-- Modelled from the spec: one lexical scope — an optional enclosing
scope, the strict-mode flag, and the name-to-binding map for names
introduced in this scope. -/
structure ScopeInfo where
  parent : Option ScopeInfoId
  is_strict : Bool
  map : List (String × VariableInfo)

/-- Look a name up in one scope's binding map. -/
def lookupName (m : List (String × VariableInfo)) (name : String) : Option VariableInfo :=
  (m.find? (fun kv => kv.1 == name)).map (fun kv => kv.2)

/-- Insert a binding into one scope's map, replacing any previous
binding of the same name (hash-map semantics). -/
def insertName (m : List (String × VariableInfo)) (name : String) (v : VariableInfo) :
    List (String × VariableInfo) :=
  m.filter (fun kv => kv.1 != name) ++ [(name, v)]

/-- Modelled from the spec: the scope store — a collection of scopes
addressed by `ScopeInfoId`, plus the counters that hand out fresh scope
and binding identities. -/
structure ScopeInfoDB where
  scopes : List (ScopeInfoId × ScopeInfo)
  next_scope_id : Nat
  next_var_id : Nat

/-- Modelled from the spec: `ScopeInfoDB::new`. -/
def ScopeInfoDB.new : ScopeInfoDB := ⟨[], 0, 0⟩

/-- Modelled from the spec: `ScopeInfoDB::create`, producing a fresh
scope (root scopes have no parent and start non-strict). -/
def ScopeInfoDB.create (db : ScopeInfoDB) : ScopeInfoId × ScopeInfoDB :=
  (db.next_scope_id,
    { db with
      scopes := db.scopes ++ [(db.next_scope_id, ⟨none, false, []⟩)]
      next_scope_id := db.next_scope_id + 1 })

/-- Find a scope by its id. -/
def ScopeInfoDB.findScope (db : ScopeInfoDB) (id : ScopeInfoId) : Option ScopeInfo :=
  (db.scopes.find? (fun s => s.1 == id)).map (fun s => s.2)

/-- Update applied to one scope entry by `ScopeInfoDB.set`. -/
def updScope (scope : ScopeInfoId) (name : String) (v : VariableInfo) :
    (ScopeInfoId × ScopeInfo) → (ScopeInfoId × ScopeInfo) :=
  fun s => if s.1 == scope then (s.1, { s.2 with map := insertName s.2.map name v }) else s

/-- Modelled from the spec: `ScopeInfoDB::set(scope, name, info)` —
stores the binding for `name` in exactly the given scope, assigning it
the next fresh binding id.  (The source addresses bindings through an
arena of `VariableInfoId`s; storing the binding inline in the scope map
is observably the same.) -/
def ScopeInfoDB.set (db : ScopeInfoDB) (scope : ScopeInfoId) (name : String)
    (info : VariableInfoId → VariableInfo) : ScopeInfoDB :=
  { db with
    scopes := db.scopes.map (updScope scope name (info db.next_var_id))
    next_var_id := db.next_var_id + 1 }

/-- Modelled from the spec: `ScopeInfoDB::delete(scope, name)` —
removes the binding for `name` from exactly the given scope. -/
def ScopeInfoDB.delete (db : ScopeInfoDB) (scope : ScopeInfoId) (name : String) : ScopeInfoDB :=
  { db with
    scopes := db.scopes.map
      (fun s => if s.1 == scope then (s.1, { s.2 with map := s.2.map.filter (fun kv => kv.1 != name) }) else s) }

/-- Modelled from the spec: lookup walks outward through enclosing
scopes — a name unresolved in the innermost scope is looked up in the
parent, and is unresolved overall only when no enclosing scope binds
it.  The fuel is the number of scopes, an upper bound on the parent
chain length. -/
def ScopeInfoDB.getAux (db : ScopeInfoDB) : Nat → ScopeInfoId → String → Option VariableInfo
  | 0, _, _ => none
  | Nat.succ fuel, scope, name =>
    match db.findScope scope with
    | none => none
    | some si =>
      match lookupName si.map name with
      | some v => some v
      | none =>
        match si.parent with
        | some pid => db.getAux fuel pid name
        | none => none

/-- Modelled from the spec: `ScopeInfoDB::get(&scope, name)` followed by
`expect_get_variable` — the shadow-aware outward lookup, returning the
binding itself. -/
def ScopeInfoDB.get (db : ScopeInfoDB) (scope : ScopeInfoId) (name : String) :
    Option VariableInfo :=
  db.getAux db.scopes.length scope name

/-- Modelled from the spec: update one scope in place (the
`expect_get_mut_scope` access path; a missing scope is a programmer
error in the source and leaves the store unchanged here). -/
def ScopeInfoDB.updateScope (db : ScopeInfoDB) (scope : ScopeInfoId)
    (f : ScopeInfo → ScopeInfo) : ScopeInfoDB :=
  { db with scopes := db.scopes.map (fun s => if s.1 == scope then (s.1, f s.2) else s) }

/-- The result of `get_free_info_from_variable`: the resolved external
name together with the binding when one exists. -/
structure FreeInfo where
  name : String
  info : Option VariableInfo

/-- The scope-relevant state of `JavascriptParser`: the scope store,
the current scope, and the caller-owned ignored-span set.  The
remaining fields of the source struct (diagnostics, dependency buffers,
plugin drive, flags) do not participate in the claims' operations and
are omitted from the model. -/
structure JavascriptParser where
  definitions_db : ScopeInfoDB
  definitions : ScopeInfoId
  ignored : List DependencyLocation

/-- The scope-relevant part of `JavascriptParser::new`: a fresh store
with one root scope that becomes the current scope, and an empty
ignored-span set. -/
def JavascriptParser.new : JavascriptParser :=
  let created := ScopeInfoDB.new.create
  { definitions_db := created.2, definitions := created.1, ignored := [] }

/-- Translation of `JavascriptParser::get_variable_info`: shadow-aware
lookup of a name starting from the current scope. -/
def JavascriptParser.get_variable_info (p : JavascriptParser) (name : String) :
    Option VariableInfo :=
  p.definitions_db.get p.definitions name

/-- Translation of `JavascriptParser::get_free_info_from_variable`. -/
def JavascriptParser.get_free_info_from_variable (p : JavascriptParser) (name : String) :
    Option FreeInfo :=
  match p.get_variable_info name with
  | none => some { name := name, info := none }
  | some info =>
    match info.free_name with
    | some (FreeName.String n) => some { name := n, info := some info }
    | _ => none

/-- Translation of `JavascriptParser::define_variable`. -/
def JavascriptParser.define_variable (p : JavascriptParser) (name : String) :
    JavascriptParser :=
  let definitions := p.definitions
  match p.get_variable_info name with
  | some variable_info =>
    if variable_info.tag_info.isSome ∧ definitions = variable_info.declared_scope then p
    else
      { p with definitions_db :=
          p.definitions_db.set definitions name (VariableInfo.new definitions none none) }
  | none =>
    { p with definitions_db :=
        p.definitions_db.set definitions name (VariableInfo.new definitions none none) }

/-- Translation of `JavascriptParser::undefined_variable`. -/
def JavascriptParser.undefined_variable (p : JavascriptParser) (name : String) :
    JavascriptParser :=
  { p with definitions_db := p.definitions_db.delete p.definitions name }

/-- Translation of `JavascriptParser::tag_variable` (the plugin payload
is kept in its serialized form, so `data` is the already-serialized
value). -/
def JavascriptParser.tag_variable (p : JavascriptParser) (name : String) (tag : String)
    (data : Option String) : JavascriptParser :=
  let new_info : VariableInfoId → VariableInfo :=
    match p.definitions_db.get p.definitions name with
    | some old_info =>
      match old_info.tag_info with
      | some old_tag_info =>
        VariableInfo.new old_info.declared_scope old_info.free_name
          (some (TagInfo.mk tag data (some old_tag_info)))
      | none =>
        VariableInfo.new old_info.declared_scope (some FreeName.True)
          (some (TagInfo.mk tag data none))
    | none =>
      VariableInfo.new p.definitions (some (FreeName.String name))
        (some (TagInfo.mk tag data none))
  { p with definitions_db := p.definitions_db.set p.definitions name new_info }

/-- Translation of the `CallHooksName` implementation for `&str`: the
hook dispatch key for a single name. -/
def call_hooks_name_str (name : String) (p : JavascriptParser) : Option String :=
  match p.get_variable_info name with
  | some info =>
    match info.free_name with
    | some (FreeName.String free_name) => some free_name
    | _ => none
  | none => some name

/-- Sequential application of `tag_variable` (no payload) for a list of
tag labels, first label first. -/
def tagMany (p : JavascriptParser) (name : String) : List String → JavascriptParser
  | [] => p
  | t :: ts => tagMany (p.tag_variable name t none) name ts

/-- Modelled from the spec: the two meta-property kinds. -/
inductive MetaPropKind where
  | new_target
  | import_meta
deriving Repr, DecidableEq

/-- Modelled from the spec: the literal kinds of the external tree.
`JSXText` is omitted: the source marks it unreachable as a computed
member key.  Numeric values are modelled as integers (the claims do not
exercise floating-point keys, which are outside a shallow embedding). -/
inductive Lit where
  | str (value : String)
  | bool (value : Bool)
  | null
  | num (value : Int)
  | bigint (value : Int)
  | regex (exp : String)
deriving Repr, DecidableEq

/-- Modelled from the spec: the operator of a binary expression; only
`+` matters to the modelled constant folder. -/
inductive BinOp where
  | add
  | other
deriving Repr, DecidableEq

mutual
/-- Modelled from the spec: the expression shapes of the external tree
that the source file inspects; every shape carries its span, and all
shapes the source does not inspect collapse into `other`. -/
inductive Expr where
  | ident (sym : String) (span : Span)
  | this (span : Span)
  | metaProp (kind : MetaPropKind) (span : Span)
  | lit (l : Lit) (span : Span)
  | member (obj : Expr) (prop : MemberProp) (span : Span)
  | call (callee : Callee) (span : Span)
  | tpl (exprs : List Expr) (span : Span)
  | cond (test : Expr) (cons : Expr) (alt : Expr) (span : Span)
  | unary (arg : Expr) (span : Span)
  | bin (op : BinOp) (left : Expr) (right : Expr) (span : Span)
  | array (elems : List Expr) (span : Span)
  | new (callee : Expr) (span : Span)
  | other (span : Span)

/-- Modelled from the spec: a member-access property — a plain
identifier, a computed key expression, or another shape (private
names), which the extractor treats as neither. -/
inductive MemberProp where
  | ident (sym : String)
  | computed (e : Expr)
  | other

/-- Modelled from the spec: a callee — an expression or another shape
(`super`/`import`), which has no root name. -/
inductive Callee where
  | expr (e : Expr)
  | other
end

/-- Span of an expression. -/
def Expr.span : Expr → Span
  | .ident _ s => s
  | .this s => s
  | .metaProp _ s => s
  | .lit _ s => s
  | .member _ _ s => s
  | .call _ s => s
  | .tpl _ s => s
  | .cond _ _ _ s => s
  | .unary _ s => s
  | .bin _ _ _ s => s
  | .array _ s => s
  | .new _ s => s
  | .other s => s

/-- Translation of `RootName for Expr` (identifier, `this` and
meta-property shapes have a root name; everything else does not). -/
def Expr.get_root_name : Expr → Option String
  | .ident sym _ => some sym
  | .this _ => some "this"
  | .metaProp MetaPropKind.new_target _ => some "new.target"
  | .metaProp MetaPropKind.import_meta _ => some "import.meta"
  | _ => none

/-- Translation of `RootName for Callee`. -/
def Callee.get_root_name : Callee → Option String
  | .expr e => e.get_root_name
  | .other => none

/-- Modelled from the spec: `Expr::as_lit`. -/
def Expr.as_lit : Expr → Option Lit
  | .lit l _ => some l
  | _ => none

/-- Translation of `ExtractedMemberExpressionChainData`. -/
structure ExtractedMemberExpressionChainData where
  object : Expr
  members : List String
  member_ranges : List Span

/-- Translation of the computed-key cases of
`extract_member_expression_chain`: the literal key rendered as a member
name. -/
def litMemberName : Lit → String
  | .str s => s
  | .bool b => if b then "true" else "false"
  | .null => "null"
  | .num n => toString n
  | .bigint i => toString i
  | .regex r => r

/-- Translation of the unwrapping loop of
`extract_member_expression_chain`: while the object is a member access
whose property is a plain identifier or a literal computed key, push the
member name and the object's span and descend; any other property stops
the loop with the current member access left as the object. -/
def extractLoop : Expr → List String → List Span → ExtractedMemberExpressionChainData
  | .member obj prop span, members, ranges =>
    match prop with
    | .computed e =>
      match e.as_lit with
      | some l => extractLoop obj (members ++ [litMemberName l]) (ranges ++ [obj.span])
      | none => ⟨.member obj prop span, members, ranges⟩
    | .ident sym => extractLoop obj (members ++ [sym]) (ranges ++ [obj.span])
    | .other => ⟨.member obj prop span, members, ranges⟩
  | e, members, ranges => ⟨e, members, ranges⟩

/-- Translation of `JavascriptParser::extract_member_expression_chain`
(the argument is the member expression, given by its components). -/
def extract_member_expression_chain (obj : Expr) (prop : MemberProp) (span : Span) :
    ExtractedMemberExpressionChainData :=
  extractLoop (.member obj prop span) [] []

/-- Translation of `object_and_members_to_name`: the dotted name built
from the resolved root and the member list read in reverse. -/
def object_and_members_to_name (object : String) (members_reversed : List String) : String :=
  members_reversed.reverse.foldl (fun name member => name ++ "." ++ member) object

/-- Translation of the `AllowedMemberTypes` bitflags. -/
structure AllowedMemberTypes where
  call_expression : Bool
  expression : Bool
deriving Repr, DecidableEq

/-- The `AllowedMemberTypes::CallExpression` flag alone. -/
def AllowedMemberTypes.CallExpression : AllowedMemberTypes := ⟨true, false⟩

/-- The `AllowedMemberTypes::Expression` flag alone. -/
def AllowedMemberTypes.Expression : AllowedMemberTypes := ⟨false, true⟩

/-- Both `AllowedMemberTypes` flags. -/
def AllowedMemberTypes.All : AllowedMemberTypes := ⟨true, true⟩

/-- Translation of `ExportedVariableInfo`: a bare external name or a
binding identity. -/
inductive ExportedVariableInfo where
  | name (n : String)
  | variable_info (id : VariableInfoId)
deriving Repr, DecidableEq

/-- Translation of `MemberExpressionInfo` with its two payloads
(`CallExpressionInfo` and `ExpressionExpressionInfo`). -/
inductive MemberExpressionInfo where
  | call (call : Expr) (callee_name : String) (root_info : ExportedVariableInfo)
  | expression (name : String) (root_info : ExportedVariableInfo)

/-- Identifier, `this` and meta-property roots: the shapes the source
matches as expression roots in `get_member_expression_info`. -/
def isExprRoot : Expr → Bool
  | .metaProp _ _ | .ident _ _ | .this _ => true
  | _ => false

/-- Translation of the `root_info` selection of
`get_member_expression_info`: the binding identity when the free-name
lookup carried a binding, else the bare root name. -/
def rootInfoOf (fi : FreeInfo) (root_name : String) : ExportedVariableInfo :=
  match fi.info with
  | some i => .variable_info i.id
  | none => .name root_name

/-- Translation of the body of
`JavascriptParser::get_member_expression_info` after the chain has been
extracted: classify the chain root, check the allowed capability,
resolve the root name and its free-name info, and build the dotted
name. -/
def JavascriptParser.gmeiFromData (p : JavascriptParser)
    (d : ExtractedMemberExpressionChainData) (allowed : AllowedMemberTypes) :
    Option MemberExpressionInfo :=
  match d.object with
  | .call callee span =>
    if !allowed.call_expression then none
    else
      match callee.get_root_name with
      | none => none
      | some root_name =>
        match p.get_free_info_from_variable root_name with
        | none => none
        | some fi =>
          some (.call (Expr.call callee span) (object_and_members_to_name fi.name d.members)
            (rootInfoOf fi root_name))
  | o =>
    if isExprRoot o then
      if !allowed.expression then none
      else
        match o.get_root_name with
        | none => none
        | some root_name =>
          match p.get_free_info_from_variable root_name with
          | none => none
          | some fi =>
            some (.expression (object_and_members_to_name fi.name d.members)
              (rootInfoOf fi root_name))
    else none

/-- Translation of `JavascriptParser::get_member_expression_info` (the
member expression is given by its components). -/
def JavascriptParser.get_member_expression_info (p : JavascriptParser) (obj : Expr)
    (prop : MemberProp) (span : Span) (allowed : AllowedMemberTypes) :
    Option MemberExpressionInfo :=
  p.gmeiFromData (extract_member_expression_chain obj prop span) allowed

/-- Modelled from the spec: the evaluated-value union — string, number,
boolean, regexp, array-of-evaluated, conditional, template,
identifier-with-root-reference, and unknown. -/
inductive EvalValue where
  | unknown
  | string (s : String)
  | number (n : Int)
  | boolean (b : Bool)
  | regexp (src : String)
  | array (elems : List EvalValue)
  | cond (cons : EvalValue) (alt : EvalValue)
  | template (parts : List EvalValue)
  | identifier (name : String) (root_info : ExportedVariableInfo)

/-- A literal-value variant (string, number, boolean, regexp). -/
def EvalValue.isLeafConst : EvalValue → Bool
  | .string _ | .number _ | .boolean _ | .regexp _ => true
  | _ => false

/-- Modelled from the spec: "is a compile-time constant" is true only
for the literal-value variants — string, number, boolean, regexp, and
array-of-constants — never for identifier-with-root-reference, the
ambiguous variants or unknown.  (The modelled evaluator only ever
builds arrays of literal values, so one level of element checking
suffices.) -/
def EvalValue.is_compile_time_value : EvalValue → Bool
  | .string _ | .number _ | .boolean _ | .regexp _ => true
  | .array elems => elems.all EvalValue.isLeafConst
  | _ => false

/-- Modelled from the spec: `BasicEvaluatedExpression` — an evaluated
value together with its source range. -/
structure BasicEvaluatedExpression where
  value : EvalValue
  range_start : Nat
  range_end : Nat

/-- Modelled from the spec: `BasicEvaluatedExpression::with_range`, the
unknown value carrying only a source range. -/
def BasicEvaluatedExpression.with_range (start stop : Nat) : BasicEvaluatedExpression :=
  { value := .unknown, range_start := start, range_end := stop }

/-- Modelled from the spec: `BasicEvaluatedExpression::set_identifier`. -/
def BasicEvaluatedExpression.set_identifier (e : BasicEvaluatedExpression) (name : String)
    (root_info : ExportedVariableInfo) : BasicEvaluatedExpression :=
  { e with value := .identifier name root_info }

/-- Modelled from the spec: `BasicEvaluatedExpression::is_compile_time_value`. -/
def BasicEvaluatedExpression.is_compile_time_value (e : BasicEvaluatedExpression) : Bool :=
  e.value.is_compile_time_value

/-- Modelled from the spec: `eval::eval_lit_expr` — every literal kind
recognized as a constant of the evaluated-value union (the union lists
no null/bigint variant, so those two literal kinds yield no value). -/
def eval_lit_value : Lit → Option EvalValue
  | .str s => some (.string s)
  | .bool b => some (.boolean b)
  | .num n => some (.number n)
  | .regex r => some (.regexp r)
  | .null => none
  | .bigint _ => none

/-- Modelled from the spec: the internal dispatch `evaluating(expr)` of
the evaluator.  The member-expression and identifier arms are
translated from the source file; the remaining arms stand in for the
`eval` module that is not part of the excerpt, folding exactly the
shallow literal cases the spec describes (a juxtaposed literal
conditional, the constant string concatenation, literal template and
array elements); deeper recursive folding belongs to the missing
module and yields no value here. -/
def JavascriptParser.evaluating (p : JavascriptParser) (expr : Expr) :
    Option BasicEvaluatedExpression :=
  match expr with
  | .lit l span =>
    match eval_lit_value l with
    | some v => some ⟨v, span.real_lo, span.hi⟩
    | none => none
  | .tpl exprs span =>
    match exprs.mapM (fun e => e.as_lit.bind eval_lit_value) with
    | some vs => some ⟨.template vs, span.real_lo, span.hi⟩
    | none => none
  | .cond test cons alt span =>
    match test.as_lit with
    | some (.bool b) =>
      match (if b then cons else alt).as_lit with
      | some l =>
        match eval_lit_value l with
        | some v => some ⟨v, span.real_lo, span.hi⟩
        | none => none
      | none => none
    | _ =>
      match cons.as_lit.bind eval_lit_value, alt.as_lit.bind eval_lit_value with
      | some cv, some av => some ⟨.cond cv av, span.real_lo, span.hi⟩
      | _, _ => none
  | .unary _ _ => none
  | .bin op left right span =>
    match op with
    | .add =>
      match left.as_lit.bind eval_lit_value, right.as_lit.bind eval_lit_value with
      | some (.string a), some (.string b) => some ⟨.string (a ++ b), span.real_lo, span.hi⟩
      | _, _ => none
    | .other => none
  | .array elems span =>
    match elems.mapM (fun e => e.as_lit.bind eval_lit_value) with
    | some vs => some ⟨.array vs, span.real_lo, span.hi⟩
    | none => none
  | .new _ _ => none
  | .member obj prop span =>
    match p.get_member_expression_info obj prop span AllowedMemberTypes.Expression with
    | some (.expression name root_info) =>
      some ((BasicEvaluatedExpression.with_range span.real_lo span.hi).set_identifier
        name root_info)
    | _ => none
  | .ident sym span =>
    match p.get_variable_info sym with
    | none =>
      some ((BasicEvaluatedExpression.with_range span.real_lo span.hi).set_identifier
        sym (.name sym))
    | some info =>
      match info.free_name with
      | some (FreeName.String _) =>
        some ((BasicEvaluatedExpression.with_range span.real_lo span.hi).set_identifier
          sym (.variable_info info.id))
      | _ => none
  | _ => none

/-- Translation of `JavascriptParser::evaluate_expression`: wraps the
internal dispatch, records the span of a provable compile-time constant
in the ignored-span set, and falls back to an unknown value carrying
the expression's range. -/
def JavascriptParser.evaluate_expression (p : JavascriptParser) (expr : Expr) :
    BasicEvaluatedExpression × JavascriptParser :=
  match p.evaluating expr with
  | some evaluated =>
    if evaluated.is_compile_time_value then
      (evaluated,
        { p with ignored :=
            p.ignored.insert (DependencyLocation.mk expr.span.real_lo expr.span.real_hi) })
    else (evaluated, p)
  | none => (BasicEvaluatedExpression.with_range expr.span.real_lo expr.span.hi, p)

/-- Modelled from the spec: a statement — an expression statement or
any other statement shape. -/
inductive Stmt where
  | expr (e : Expr)
  | other

/-- Modelled from the spec: `Stmt::as_expr`, the expression of an
expression statement. -/
def Stmt.as_expr : Stmt → Option Expr
  | .expr e => some e
  | .other => none

/-- Translation of `JavascriptParser::set_strict`. -/
def JavascriptParser.set_strict (p : JavascriptParser) (value : Bool) : JavascriptParser :=
  { p with definitions_db :=
      p.definitions_db.updateScope p.definitions (fun s => { s with is_strict := value }) }

/-- Translation of `JavascriptParser::is_strict` (a missing current
scope is a programmer error in the source and reads as non-strict
here). -/
def JavascriptParser.is_strict (p : JavascriptParser) : Bool :=
  match p.definitions_db.findScope p.definitions with
  | some s => s.is_strict
  | none => false

/-- Translation of `JavascriptParser::detect_mode`: the strict flag is
set exactly when the first statement is an expression statement whose
expression is the string literal `"use strict"`. -/
def JavascriptParser.detect_mode (p : JavascriptParser) (stmts : List Stmt) :
    JavascriptParser :=
  match (stmts.head?.bind Stmt.as_expr).bind Expr.as_lit with
  | some (Lit.str value) => if value == "use strict" then p.set_strict true else p
  | _ => p

/-- Modelled from the spec: an item of an ES-module body (a module
declaration or an ordinary statement); its internals are not inspected
by the entry point. -/
inductive ModuleItem where
  | moduleDecl
  | stmt (s : Stmt)

/-- Modelled from the spec: a parsed program — module or script form. -/
inductive Program where
  | module (body : List ModuleItem)
  | script (body : List Stmt)

/-- Modelled from the spec: the bodies of the three traversal passes
live in walk sub-modules that are not part of the excerpt, so the entry
point is parameterised over them as state transformers. -/
structure WalkPasses where
  pre_walk_module_declarations : JavascriptParser → List ModuleItem → JavascriptParser
  block_pre_walk_module_declarations : JavascriptParser → List ModuleItem → JavascriptParser
  walk_module_declarations : JavascriptParser → List ModuleItem → JavascriptParser
  pre_walk_statements : JavascriptParser → List Stmt → JavascriptParser
  block_pre_walk_statements : JavascriptParser → List Stmt → JavascriptParser
  walk_statements : JavascriptParser → List Stmt → JavascriptParser

/-- Translation of `JavascriptParser::walk_program`, parameterised over
the plugin drive's `program` hook result (the drive is not part of the
excerpt) and over the pass bodies: when no plugin takes the program
over, a module is walked strict unconditionally, a script goes through
pragma detection, and the three passes run in order. -/
def walk_program (programHook : JavascriptParser → Program → Option Bool)
    (passes : WalkPasses) (p : JavascriptParser) (ast : Program) : JavascriptParser :=
  match programHook p ast with
  | some _ => p
  | none =>
    match ast with
    | .module m =>
      let p1 := p.set_strict true
      let p2 := passes.pre_walk_module_declarations p1 m
      let p3 := passes.block_pre_walk_module_declarations p2 m
      passes.walk_module_declarations p3 m
    | .script s =>
      let p1 := p.detect_mode s
      let p2 := passes.pre_walk_statements p1 s
      let p3 := passes.block_pre_walk_statements p2 s
      passes.walk_statements p3 s

/-- Following the claim's words: the first statement is an expression
statement whose expression is a string literal with value exactly
`"use strict"`. -/
def isUseStrictPragma (stmts : List Stmt) : Bool :=
  match (stmts.head?.bind Stmt.as_expr).bind Expr.as_lit with
  | some (Lit.str value) => value == "use strict"
  | _ => false

/-- Pass bodies that leave the parser untouched, used to instantiate
the parameterised entry point at a concrete input. -/
def idPasses : WalkPasses :=
  ⟨fun p _ => p, fun p _ => p, fun p _ => p, fun p _ => p, fun p _ => p, fun p _ => p⟩

/-- The member components of the source chain `a.b["c"].d`: the object
`a.b["c"]` (whose final property is the plain identifier `d`). -/
def chainABCD_obj : Expr :=
  .member (.member (.ident "a" ⟨1, 2⟩) (.ident "b") ⟨1, 4⟩)
    (.computed (.lit (.str "c") ⟨5, 8⟩)) ⟨1, 8⟩

/-- Number of bindings a scope's map holds for one name. -/
def countName (m : List (String × VariableInfo)) (name : String) : Nat :=
  (m.filter (fun kv => kv.1 == name)).length

/-- Following the claim's words: the root kinds permitted by the
capability flags — call roots need `CallExpression`,
identifier/`this`/meta-property roots need `Expression`, any other root
is never permitted. -/
def rootPermitted (object : Expr) (allowed : AllowedMemberTypes) : Bool :=
  match object with
  | .call _ _ => allowed.call_expression
  | .metaProp _ _ | .ident _ _ | .this _ => allowed.expression
  | _ => false

/-- Root name of the extracted chain object: the callee's root name for
a call root, the object's own root name otherwise. -/
def rootNameOf (object : Expr) : Option String :=
  match object with
  | .call callee _ => callee.get_root_name
  | o => o.get_root_name

/-- Following the claim's words: `get_member_expression_info` fails
exactly when the root kind is not permitted, the root has no resolvable
name, or the root's free-name lookup fails; on success it returns a
Call info for a call root and an Expression info otherwise, each
carrying the fully dotted name built from the resolved root. -/
def gmeiSpec (p : JavascriptParser) (d : ExtractedMemberExpressionChainData)
    (allowed : AllowedMemberTypes) : Option MemberExpressionInfo :=
  if rootPermitted d.object allowed = false then none
  else
    match rootNameOf d.object with
    | none => none
    | some rn =>
      match p.get_free_info_from_variable rn with
      | none => none
      | some fi =>
        match d.object with
        | .call callee cspan =>
          some (.call (Expr.call callee cspan)
            (object_and_members_to_name fi.name d.members) (rootInfoOf fi rn))
        | _ =>
          some (.expression (object_and_members_to_name fi.name d.members)
            (rootInfoOf fi rn))
theorem lookupName_insertName (m : List (String × VariableInfo)) (name : String)
    (v : VariableInfo) : lookupName (insertName m name v) name = some v := by
  induction m with
  | nil => simp [insertName, lookupName]
  | cons kv rest ih =>
    by_cases h : kv.1 = name
    · simp only [insertName, List.filter_cons, h] at ih ⊢
      simpa using ih
    · simp only [insertName, lookupName, List.filter_cons, List.find?_cons, h] at ih ⊢
      simp [h, ih]

theorem updScope_fst (scope : ScopeInfoId) (name : String) (v : VariableInfo)
    (s : ScopeInfoId × ScopeInfo) : (updScope scope name v s).1 = s.1 := by
  unfold updScope; split <;> rfl

theorem findScope_set (db : ScopeInfoDB) (scope : ScopeInfoId) (name : String)
    (info : VariableInfoId → VariableInfo) :
    (db.set scope name info).findScope scope =
      (db.findScope scope).map
        (fun si => { si with map := insertName si.map name (info db.next_var_id) }) := by
  unfold ScopeInfoDB.set ScopeInfoDB.findScope
  simp only [List.find?_map]
  have hpred : ((fun s : ScopeInfoId × ScopeInfo => s.1 == scope) ∘
      updScope scope name (info db.next_var_id)) =
      (fun s : ScopeInfoId × ScopeInfo => s.1 == scope) := by
    funext x; simp [Function.comp, updScope_fst]
  rw [hpred]
  cases hf : db.scopes.find? (fun s => s.1 == scope) with
  | none => rfl
  | some s0 =>
    have hs0 := List.find?_some hf
    simp [updScope, hs0]

theorem scopes_length_set (db : ScopeInfoDB) (scope : ScopeInfoId) (name : String)
    (info : VariableInfoId → VariableInfo) :
    (db.set scope name info).scopes.length = db.scopes.length := by
  simp [ScopeInfoDB.set]

theorem get_of_lookup (db : ScopeInfoDB) (scope : ScopeInfoId) (name : String)
    (si : ScopeInfo) (v : VariableInfo) (hfind : db.findScope scope = some si)
    (hlook : lookupName si.map name = some v) : db.get scope name = some v := by
  have hne : db.scopes ≠ [] := by
    intro h
    rw [ScopeInfoDB.findScope, h] at hfind
    simp at hfind
  obtain ⟨a, l, hl⟩ := List.exists_cons_of_ne_nil hne
  unfold ScopeInfoDB.get
  rw [hl]
  simp only [List.length_cons]
  unfold ScopeInfoDB.getAux
  simp [hfind, hlook]

theorem lookup_none_of_get_none (db : ScopeInfoDB) (scope : ScopeInfoId) (name : String)
    (si : ScopeInfo) (hfind : db.findScope scope = some si)
    (hget : db.get scope name = none) : lookupName si.map name = none := by
  have hne : db.scopes ≠ [] := by
    intro h
    rw [ScopeInfoDB.findScope, h] at hfind
    simp at hfind
  obtain ⟨a, l, hl⟩ := List.exists_cons_of_ne_nil hne
  unfold ScopeInfoDB.get at hget
  rw [hl] at hget
  simp only [List.length_cons] at hget
  unfold ScopeInfoDB.getAux at hget
  cases hlook : lookupName si.map name with
  | none => rfl
  | some v => simp [hfind, hlook] at hget

theorem get_after_set (db : ScopeInfoDB) (scope : ScopeInfoId) (name : String)
    (si : ScopeInfo) (info : VariableInfoId → VariableInfo)
    (hfind : db.findScope scope = some si) :
    (db.set scope name info).get scope name = some (info db.next_var_id) := by
  apply get_of_lookup _ _ _ { si with map := insertName si.map name (info db.next_var_id) }
  · rw [findScope_set, hfind]; rfl
  · exact lookupName_insertName _ _ _

theorem findScope_updateScope (db : ScopeInfoDB) (scope : ScopeInfoId)
    (f : ScopeInfo → ScopeInfo) :
    (db.updateScope scope f).findScope scope = (db.findScope scope).map f := by
  unfold ScopeInfoDB.updateScope ScopeInfoDB.findScope
  simp only [List.find?_map]
  have hpred : ((fun s : ScopeInfoId × ScopeInfo => s.1 == scope) ∘
      (fun s : ScopeInfoId × ScopeInfo => if s.1 == scope then (s.1, f s.2) else s)) =
      (fun s : ScopeInfoId × ScopeInfo => s.1 == scope) := by
    funext x
    by_cases h : x.1 = scope <;> simp [Function.comp, h]
  rw [hpred]
  cases hf : db.scopes.find? (fun s => s.1 == scope) with
  | none => rfl
  | some s0 =>
    have hs0 : s0.1 = scope := by simpa using List.find?_some hf
    simp [hs0]

theorem is_strict_set_strict (p : JavascriptParser) (value : Bool) (si : ScopeInfo)
    (hfind : p.definitions_db.findScope p.definitions = some si) :
    (p.set_strict value).is_strict = value := by
  unfold JavascriptParser.set_strict JavascriptParser.is_strict
  simp [findScope_updateScope, hfind]

/-- C6: the three cases of free-name resolution. -/
theorem get_free_info_cases (p : JavascriptParser) (name : String) :
    (p.get_variable_info name = none →
      p.get_free_info_from_variable name = some { name := name, info := none }) ∧
    (∀ info y, p.get_variable_info name = some info →
      info.free_name = some (FreeName.String y) →
      p.get_free_info_from_variable name = some { name := y, info := some info }) ∧
    (∀ info, p.get_variable_info name = some info →
      (info.free_name = some FreeName.True ∨ info.free_name = none) →
      p.get_free_info_from_variable name = none) := by
  refine ⟨?_, ?_, ?_⟩
  · intro h
    unfold JavascriptParser.get_free_info_from_variable
    rw [h]
  · intro info y h hf
    unfold JavascriptParser.get_free_info_from_variable
    simp [h, hf]
  · intro info h hdisj
    unfold JavascriptParser.get_free_info_from_variable
    rcases hdisj with hf | hf <;> simp [h, hf]

/-- C7: the hook dispatch key for a single name. -/
theorem call_hooks_name_str_cases (p : JavascriptParser) (name : String) :
    (p.get_variable_info name = none → call_hooks_name_str name p = some name) ∧
    (∀ info y, p.get_variable_info name = some info →
      info.free_name = some (FreeName.String y) → call_hooks_name_str name p = some y) ∧
    (∀ info, p.get_variable_info name = some info →
      (info.free_name = some FreeName.True ∨ info.free_name = none) →
      call_hooks_name_str name p = none) := by
  refine ⟨?_, ?_, ?_⟩
  · intro h
    unfold call_hooks_name_str
    rw [h]
  · intro info y h hf
    unfold call_hooks_name_str
    simp [h, hf]
  · intro info h hdisj
    unfold call_hooks_name_str
    rcases hdisj with hf | hf <;> simp [h, hf]

/-- C9: strict-mode pragma detection. -/
theorem detect_mode_strict_pragma (p : JavascriptParser) (stmts : List Stmt) (si : ScopeInfo)
    (hfind : p.definitions_db.findScope p.definitions = some si) :
    (isUseStrictPragma stmts = true → (p.detect_mode stmts).is_strict = true) ∧
    (isUseStrictPragma stmts = false → p.detect_mode stmts = p) := by
  constructor
  · intro h
    unfold isUseStrictPragma at h
    unfold JavascriptParser.detect_mode
    cases hl : (stmts.head?.bind Stmt.as_expr).bind Expr.as_lit with
    | none => rw [hl] at h; simp at h
    | some l =>
      rw [hl] at h
      cases l with
      | str value =>
        simp only at h
        simp [h]
        exact is_strict_set_strict p true si hfind
      | _ => simp at h
  · intro h
    unfold isUseStrictPragma at h
    unfold JavascriptParser.detect_mode
    cases hl : (stmts.head?.bind Stmt.as_expr).bind Expr.as_lit with
    | none => rfl
    | some l =>
      rw [hl] at h
      cases l with
      | str value => simp only at h; simp [h]
      | _ => rfl

/-- C9 witness: a first statement "use strict" turns the flag on, a
first statement "use strict " (trailing space) leaves the parser
untouched. -/
theorem detect_mode_strict_pragma_witness :
    (JavascriptParser.new.detect_mode [Stmt.expr (.lit (.str "use strict") ⟨1, 13⟩)]).is_strict
      = true ∧
    JavascriptParser.new.detect_mode [Stmt.expr (.lit (.str "use strict ") ⟨1, 14⟩)]
      = JavascriptParser.new := by
  constructor
  · exact (detect_mode_strict_pragma JavascriptParser.new _ ⟨none, false, []⟩ rfl).1 rfl
  · exact (detect_mode_strict_pragma JavascriptParser.new _ ⟨none, false, []⟩ rfl).2 rfl

/-- C10: a module is walked strict unconditionally when no plugin takes
the program over. -/
theorem walk_program_module_strict (hook : JavascriptParser → Program → Option Bool)
    (passes : WalkPasses) (p : JavascriptParser) (m : List ModuleItem) (si : ScopeInfo)
    (hnone : hook p (Program.module m) = none)
    (hfind : p.definitions_db.findScope p.definitions = some si) :
    walk_program hook passes p (Program.module m) =
      passes.walk_module_declarations
        (passes.block_pre_walk_module_declarations
          (passes.pre_walk_module_declarations (p.set_strict true) m) m) m ∧
    (p.set_strict true).is_strict = true := by
  constructor
  · unfold walk_program
    rw [hnone]
  · exact is_strict_set_strict p true si hfind

/-- C10 witness: the entry point on a concrete empty module with
identity passes yields the strict parser state. -/
theorem walk_program_module_strict_witness :
    walk_program (fun _ _ => none) idPasses JavascriptParser.new (Program.module []) =
      JavascriptParser.new.set_strict true ∧
    (JavascriptParser.new.set_strict true).is_strict = true := by
  have h := walk_program_module_strict (fun _ _ => none) idPasses JavascriptParser.new []
    ⟨none, false, []⟩ rfl rfl
  exact ⟨h.1, h.2⟩

/-- C2: the evaluator wrapper records the span of a provable constant
and falls back to an unknown value carrying the expression's range
while leaving the parser (and so the ignored-span set) untouched. -/
theorem evaluate_expression_spec (p : JavascriptParser) (e : Expr) :
    (∀ v, p.evaluating e = some v → v.is_compile_time_value = true →
      p.evaluate_expression e =
        (v, { p with ignored :=
          p.ignored.insert ⟨e.span.real_lo, e.span.real_hi⟩ })) ∧
    (p.evaluating e = none →
      p.evaluate_expression e =
        (BasicEvaluatedExpression.with_range e.span.real_lo e.span.hi, p)) := by
  constructor
  · intro v h hc
    unfold JavascriptParser.evaluate_expression
    simp [h, hc]
  · intro h
    unfold JavascriptParser.evaluate_expression
    simp [h]

/-- C2 witness: a string literal is recorded in the ignored-span set; a
shape the dispatch does not recognize produces the unknown value and
leaves the parser untouched. -/
theorem evaluate_expression_spec_witness :
    JavascriptParser.new.evaluate_expression (Expr.lit (.str "k") ⟨1, 4⟩) =
      (⟨.string "k", 0, 4⟩, { JavascriptParser.new with ignored := [⟨0, 3⟩] }) ∧
    JavascriptParser.new.evaluate_expression (Expr.other ⟨1, 4⟩) =
      (BasicEvaluatedExpression.with_range 0 4, JavascriptParser.new) := by
  constructor
  · exact (evaluate_expression_spec JavascriptParser.new (Expr.lit (.str "k") ⟨1, 4⟩)).1
      ⟨.string "k", 0, 4⟩ rfl rfl
  · exact (evaluate_expression_spec JavascriptParser.new (Expr.other ⟨1, 4⟩)).2 rfl

/-- C3: round trip of the chain a.b["c"].d — root a, members [d, c, b]
in extractor order, and the reversed dotted name a.b.c.d; the last
conjunct exhibits the reversal in general (the last-stored member is
read first). -/
theorem member_chain_round_trip :
    extract_member_expression_chain chainABCD_obj (.ident "d") ⟨1, 10⟩ =
      ⟨.ident "a" ⟨1, 2⟩, ["d", "c", "b"], [⟨1, 8⟩, ⟨1, 4⟩, ⟨1, 2⟩]⟩ ∧
    object_and_members_to_name "a" ["d", "c", "b"] = "a.b.c.d" ∧
    ∀ (o m : String) (ms : List String),
      object_and_members_to_name o (ms ++ [m]) =
        object_and_members_to_name (o ++ "." ++ m) ms := by
  refine ⟨rfl, rfl, ?_⟩
  intro o m ms
  unfold object_and_members_to_name
  simp

/-- C1 counterexample: tag the unbound name x (its binding then carries
tag info and free_name String "x"), tag it again — the claim says the
re-tag forces free_name to the free-but-unnamed marker, but the source
keeps the old free_name, still String "x". -/
theorem tag_variable_retag_counterexample :
    (((JavascriptParser.new.tag_variable "x" "tag1" none).get_variable_info "x").map
        (fun v => v.tag_info.isSome) = some true) ∧
    ((((JavascriptParser.new.tag_variable "x" "tag1" none).tag_variable "x" "tag2"
        none).get_variable_info "x").map VariableInfo.free_name
      = some (some (FreeName.String "x"))) ∧
    some (some (FreeName.String "x")) ≠ some (some FreeName.True) := by
  refine ⟨rfl, rfl, ?_⟩
  decide

/-- C1 (amended): re-tagging a name whose binding already has tag info
prepends the new tag (the old chain reachable via the new tag's `next`
link) and preserves the binding's existing free_name. -/
theorem tag_variable_retag_prepends_and_preserves_free_name
    (p : JavascriptParser) (name tag : String) (data : Option String)
    (old : VariableInfo) (oldTag : TagInfo) (si : ScopeInfo)
    (hfind : p.definitions_db.findScope p.definitions = some si)
    (hget : p.definitions_db.get p.definitions name = some old)
    (htag : old.tag_info = some oldTag) :
    (p.tag_variable name tag data).get_variable_info name =
      some ⟨p.definitions_db.next_var_id, old.declared_scope, old.free_name,
        some (TagInfo.mk tag data (some oldTag))⟩ := by
  unfold JavascriptParser.tag_variable JavascriptParser.get_variable_info
  simp only [hget, htag]
  exact get_after_set _ _ _ si _ hfind

/-- C1 witness: the amended statement at the concrete two-tag run on
the initially unbound name x. -/
theorem tag_variable_retag_witness :
    ((JavascriptParser.new.tag_variable "x" "t1" none).tag_variable "x" "t2" none
        ).get_variable_info "x" =
      some ⟨1, 0, some (FreeName.String "x"),
        some (TagInfo.mk "t2" none (some (TagInfo.mk "t1" none none)))⟩ :=
  tag_variable_retag_prepends_and_preserves_free_name
    (JavascriptParser.new.tag_variable "x" "t1" none) "x" "t2" none
    ⟨0, 0, some (FreeName.String "x"), some (TagInfo.mk "t1" none none)⟩
    (TagInfo.mk "t1" none none)
    ⟨none, false, [("x", ⟨0, 0, some (FreeName.String "x"), some (TagInfo.mk "t1" none none)⟩)]⟩
    rfl rfl rfl

theorem countName_insertName (m : List (String × VariableInfo)) (name : String)
    (v : VariableInfo) : countName (insertName m name v) name = 1 := by
  induction m with
  | nil => simp [insertName, countName]
  | cons kv rest ih =>
    by_cases h : kv.1 = name
    · simp only [insertName, List.filter_cons, h] at ih ⊢
      simpa using ih
    · simp only [insertName, countName, List.filter_cons, h] at ih ⊢
      simp [h, ih]

theorem countName_pos_of_lookup (m : List (String × VariableInfo)) (name : String)
    (v : VariableInfo) (h : lookupName m name = some v) : 1 ≤ countName m name := by
  induction m with
  | nil => simp [lookupName] at h
  | cons kv rest ih =>
    by_cases hk : kv.1 = name
    · simp [countName, List.filter_cons, hk]
    · have hb : (kv.1 == name) = false := by simp [hk]
      have h2 : lookupName rest name = some v := by
        simpa [lookupName, List.find?_cons, hb] using h
      have h3 := ih h2
      simpa [countName, List.filter_cons, hb] using h3

theorem define_variable_of_none (q : JavascriptParser) (name : String)
    (h : q.get_variable_info name = none) :
    q.define_variable name =
      { q with definitions_db :=
          q.definitions_db.set q.definitions name (VariableInfo.new q.definitions none none) } := by
  unfold JavascriptParser.define_variable
  rw [h]

theorem define_variable_of_no_guard (q : JavascriptParser) (name : String)
    (info : VariableInfo) (h : q.get_variable_info name = some info)
    (hng : ¬(info.tag_info.isSome = true ∧ q.definitions = info.declared_scope)) :
    q.define_variable name =
      { q with definitions_db :=
          q.definitions_db.set q.definitions name (VariableInfo.new q.definitions none none) } := by
  unfold JavascriptParser.define_variable
  rw [h]
  simp only [if_neg hng]

theorem define_variable_of_guard (q : JavascriptParser) (name : String)
    (info : VariableInfo) (h : q.get_variable_info name = some info)
    (ht : info.tag_info.isSome = true) (hd : q.definitions = info.declared_scope) :
    q.define_variable name = q := by
  unfold JavascriptParser.define_variable
  rw [h]
  simp [ht, hd]

theorem set_count_one (db : ScopeInfoDB) (scope : ScopeInfoId) (name : String)
    (info : VariableInfoId → VariableInfo) (si : ScopeInfo)
    (hfind : db.findScope scope = some si) :
    ∃ si2, (db.set scope name info).findScope scope = some si2 ∧
      countName si2.map name = 1 := by
  refine ⟨{ si with map := insertName si.map name (info db.next_var_id) }, ?_, ?_⟩
  · rw [findScope_set, hfind]; rfl
  · exact countName_insertName _ _ _

theorem insert_twice_count (q : JavascriptParser) (name : String) (sq : ScopeInfo)
    (hqfind : q.definitions_db.findScope q.definitions = some sq)
    (hq : q.get_variable_info name = none ∨
      (∃ info, q.get_variable_info name = some info ∧
        ¬(info.tag_info.isSome = true ∧ q.definitions = info.declared_scope))) :
    ∃ si2, ((q.define_variable name).define_variable name).definitions_db.findScope
      q.definitions = some si2 ∧ countName si2.map name = 1 := by
  have hstep1 : q.define_variable name =
      { q with definitions_db :=
          q.definitions_db.set q.definitions name (VariableInfo.new q.definitions none none) } := by
    rcases hq with hnone | ⟨info, hsome, hng⟩
    · exact define_variable_of_none q name hnone
    · exact define_variable_of_no_guard q name info hsome hng
  have hget1 : (q.define_variable name).get_variable_info name =
      some (VariableInfo.new q.definitions none none q.definitions_db.next_var_id) := by
    rw [hstep1]
    exact get_after_set _ _ _ sq _ hqfind
  have hfind1 : (q.define_variable name).definitions_db.findScope
      (q.define_variable name).definitions =
      some { sq with map := insertName sq.map name (VariableInfo.new q.definitions none none q.definitions_db.next_var_id) } := by
    rw [hstep1]
    show (q.definitions_db.set q.definitions name _).findScope q.definitions = _
    rw [findScope_set, hqfind]
    rfl
  have hng1 : ¬((VariableInfo.new q.definitions none none
      q.definitions_db.next_var_id).tag_info.isSome = true ∧
      (q.define_variable name).definitions =
        (VariableInfo.new q.definitions none none q.definitions_db.next_var_id).declared_scope) := by
    intro hcontra
    simpa [VariableInfo.new] using hcontra.1
  have hstep2 := define_variable_of_no_guard (q.define_variable name) name _ hget1 hng1
  have hdef1 : (q.define_variable name).definitions = q.definitions := by
    rw [hstep1]
  rw [hstep2]
  show ∃ si2, ((q.define_variable name).definitions_db.set
    (q.define_variable name).definitions name _).findScope q.definitions = some si2 ∧
    countName si2.map name = 1
  rw [hdef1] at hfind1 ⊢
  exact set_count_one _ _ _ _ _ hfind1

/-- C4: the tag guard makes re-declaration a no-op, and two
declarations of the same name in the same scope leave exactly one
binding for the name in that scope. -/
theorem define_variable_idempotent (p : JavascriptParser) (name : String) (si : ScopeInfo)
    (hfind : p.definitions_db.findScope p.definitions = some si)
    (huniq : countName si.map name ≤ 1)
    (hloc : p.get_variable_info name = none ∨ lookupName si.map name ≠ none) :
    (∀ info, p.get_variable_info name = some info → info.tag_info.isSome = true →
      p.definitions = info.declared_scope → p.define_variable name = p) ∧
    (∃ si2,
      ((p.define_variable name).define_variable name).definitions_db.findScope
        p.definitions = some si2 ∧ countName si2.map name = 1) := by
  constructor
  · intro info h ht hd
    exact define_variable_of_guard p name info h ht hd
  · rcases hloc with hget | hlook
    · exact insert_twice_count p name si hfind (Or.inl hget)
    · obtain ⟨v, hv⟩ := Option.ne_none_iff_exists.mp hlook
      have hgetv : p.get_variable_info name = some v :=
        get_of_lookup _ _ _ si v hfind hv.symm
      by_cases hguard : v.tag_info.isSome = true ∧ p.definitions = v.declared_scope
      · have h1 : p.define_variable name = p :=
          define_variable_of_guard p name v hgetv hguard.1 hguard.2
        refine ⟨si, ?_, ?_⟩
        · rw [h1, h1]; exact hfind
        · exact Nat.le_antisymm huniq (countName_pos_of_lookup _ _ v hv.symm)
      · exact insert_twice_count p name si hfind (Or.inr ⟨v, hgetv, hguard⟩)

/-- C4 witness: declaring x twice in the fresh root scope. -/
theorem define_variable_idempotent_witness :
    ∃ si2,
      ((JavascriptParser.new.define_variable "x").define_variable "x").definitions_db.findScope
        JavascriptParser.new.definitions = some si2 ∧ countName si2.map "x" = 1 :=
  (define_variable_idempotent JavascriptParser.new "x" ⟨none, false, []⟩ rfl
    (by decide) (Or.inl rfl)).2

theorem tag_retag_helper (p : JavascriptParser) (name tag : String) (data : Option String)
    (old : VariableInfo) (oldTag : TagInfo) (si : ScopeInfo)
    (hfind : p.definitions_db.findScope p.definitions = some si)
    (hget : p.definitions_db.get p.definitions name = some old)
    (htag : old.tag_info = some oldTag) :
    (p.tag_variable name tag data).get_variable_info name =
      some ⟨p.definitions_db.next_var_id, old.declared_scope, old.free_name,
        some (TagInfo.mk tag data (some oldTag))⟩ := by
  unfold JavascriptParser.tag_variable JavascriptParser.get_variable_info
  simp only [hget, htag]
  exact get_after_set _ _ _ si _ hfind

theorem tag_fresh_helper (p : JavascriptParser) (name tag : String) (data : Option String)
    (si : ScopeInfo)
    (hfind : p.definitions_db.findScope p.definitions = some si)
    (hget : p.definitions_db.get p.definitions name = none) :
    (p.tag_variable name tag data).get_variable_info name =
      some ⟨p.definitions_db.next_var_id, p.definitions, some (FreeName.String name),
        some (TagInfo.mk tag data none)⟩ := by
  unfold JavascriptParser.tag_variable JavascriptParser.get_variable_info
  simp only [hget]
  exact get_after_set _ _ _ si _ hfind

theorem findScope_tag (p : JavascriptParser) (name tag : String) (data : Option String)
    (si : ScopeInfo) (hfind : p.definitions_db.findScope p.definitions = some si) :
    ((p.tag_variable name tag data).definitions_db.findScope
      (p.tag_variable name tag data).definitions).isSome = true := by
  unfold JavascriptParser.tag_variable
  dsimp only
  rw [findScope_set, hfind]
  rfl

theorem tag_definitions_eq (p : JavascriptParser) (name tag : String)
    (data : Option String) : (p.tag_variable name tag data).definitions = p.definitions := by
  unfold JavascriptParser.tag_variable
  rfl

theorem tagMany_definitions_eq (name : String) :
    ∀ (ts : List String) (p : JavascriptParser), (tagMany p name ts).definitions = p.definitions := by
  intro ts
  induction ts with
  | nil => intro p; rfl
  | cons t rest ih =>
    intro p
    show (tagMany (p.tag_variable name t none) name rest).definitions = p.definitions
    rw [ih, tag_definitions_eq]

theorem tagMany_chain (name : String) :
    ∀ (ts : List String) (p : JavascriptParser) (v : VariableInfo) (c : TagInfo)
      (si : ScopeInfo),
      p.definitions_db.findScope p.definitions = some si →
      p.get_variable_info name = some v → v.tag_info = some c →
      ∃ v2 c2, (tagMany p name ts).get_variable_info name = some v2 ∧
        v2.tag_info = some c2 ∧
        c2.chainLength = c.chainLength + ts.length ∧ c2.lastTag = c.lastTag := by
  intro ts
  induction ts with
  | nil =>
    intro p v c si hf hg ht
    exact ⟨v, c, hg, ht, by simp, rfl⟩
  | cons t rest ih =>
    intro p v c si hf hg ht
    have hstep := tag_retag_helper p name t none v c si hf hg ht
    obtain ⟨si1, hf1⟩ := Option.isSome_iff_exists.mp (findScope_tag p name t none si hf)
    obtain ⟨v2, c2, hg2, ht2, hlen, hlast⟩ :=
      ih (p.tag_variable name t none) _ (TagInfo.mk t none (some c)) si1 hf1 hstep rfl
    refine ⟨v2, c2, hg2, ht2, ?_, ?_⟩
    · rw [hlen]
      show c.chainLength + 1 + rest.length = c.chainLength + (rest.length + 1)
      omega
    · rw [hlast]
      rfl

/-- C5: k sequential tags on an initially unbound name produce a chain
of length exactly k whose last element is the first-applied tag. -/
theorem tag_variable_chain_length (p : JavascriptParser) (name t : String)
    (ts : List String) (si : ScopeInfo)
    (hfind : p.definitions_db.findScope p.definitions = some si)
    (hget : p.definitions_db.get p.definitions name = none) :
    ∃ v c, (tagMany p name (t :: ts)).get_variable_info name = some v ∧
      v.tag_info = some c ∧ c.chainLength = (t :: ts).length ∧ c.lastTag = t := by
  have hstep := tag_fresh_helper p name t none si hfind hget
  obtain ⟨si1, hf1⟩ := Option.isSome_iff_exists.mp (findScope_tag p name t none si hfind)
  obtain ⟨v2, c2, hg2, ht2, hlen, hlast⟩ :=
    tagMany_chain name ts (p.tag_variable name t none) _ (TagInfo.mk t none none) si1 hf1
      hstep rfl
  refine ⟨v2, c2, hg2, ht2, ?_, ?_⟩
  · rw [hlen]
    show 1 + ts.length = ts.length + 1
    omega
  · rw [hlast]
    rfl

/-- C5 witness: three sequential tags on the unbound name x in the
fresh root scope give a chain of length three ending in the first
tag. -/
theorem tag_variable_chain_length_witness :
    ∃ v c, (tagMany JavascriptParser.new "x" ["t1", "t2", "t3"]).get_variable_info "x"
        = some v ∧
      v.tag_info = some c ∧ c.chainLength = ["t1", "t2", "t3"].length ∧ c.lastTag = "t1" :=
  tag_variable_chain_length JavascriptParser.new "x" "t1" ["t2", "t3"]
    ⟨none, false, []⟩ rfl rfl

theorem gmeiFromData_eq_spec (p : JavascriptParser) (d : ExtractedMemberExpressionChainData)
    (allowed : AllowedMemberTypes) : p.gmeiFromData d allowed = gmeiSpec p d allowed := by
  obtain ⟨o, members, ranges⟩ := d
  cases o with
  | call callee span =>
    by_cases hc : allowed.call_expression = true
    · cases hrn : callee.get_root_name with
      | none => simp [JavascriptParser.gmeiFromData, gmeiSpec, rootPermitted, rootNameOf, hc, hrn]
      | some rn =>
        cases hfi : p.get_free_info_from_variable rn with
        | none =>
          simp [JavascriptParser.gmeiFromData, gmeiSpec, rootPermitted, rootNameOf, hc, hrn, hfi]
        | some fi =>
          simp [JavascriptParser.gmeiFromData, gmeiSpec, rootPermitted, rootNameOf, hc, hrn, hfi]
    · simp [JavascriptParser.gmeiFromData, gmeiSpec, rootPermitted, rootNameOf,
        Bool.eq_false_iff.mpr hc]
  | ident sym span =>
    by_cases he : allowed.expression = true
    · cases hfi : p.get_free_info_from_variable sym with
      | none =>
        simp [JavascriptParser.gmeiFromData, gmeiSpec, rootPermitted, rootNameOf, isExprRoot,
          Expr.get_root_name, he, hfi]
      | some fi =>
        simp [JavascriptParser.gmeiFromData, gmeiSpec, rootPermitted, rootNameOf, isExprRoot,
          Expr.get_root_name, he, hfi]
    · simp [JavascriptParser.gmeiFromData, gmeiSpec, rootPermitted, rootNameOf, isExprRoot,
        Bool.eq_false_iff.mpr he]
  | this span =>
    by_cases he : allowed.expression = true
    · cases hfi : p.get_free_info_from_variable "this" with
      | none =>
        simp [JavascriptParser.gmeiFromData, gmeiSpec, rootPermitted, rootNameOf, isExprRoot,
          Expr.get_root_name, he, hfi]
      | some fi =>
        simp [JavascriptParser.gmeiFromData, gmeiSpec, rootPermitted, rootNameOf, isExprRoot,
          Expr.get_root_name, he, hfi]
    · simp [JavascriptParser.gmeiFromData, gmeiSpec, rootPermitted, rootNameOf, isExprRoot,
        Bool.eq_false_iff.mpr he]
  | metaProp kind span =>
    by_cases he : allowed.expression = true
    · cases kind with
      | new_target =>
        cases hfi : p.get_free_info_from_variable "new.target" with
        | none =>
          simp [JavascriptParser.gmeiFromData, gmeiSpec, rootPermitted, rootNameOf, isExprRoot,
            Expr.get_root_name, he, hfi]
        | some fi =>
          simp [JavascriptParser.gmeiFromData, gmeiSpec, rootPermitted, rootNameOf, isExprRoot,
            Expr.get_root_name, he, hfi]
      | import_meta =>
        cases hfi : p.get_free_info_from_variable "import.meta" with
        | none =>
          simp [JavascriptParser.gmeiFromData, gmeiSpec, rootPermitted, rootNameOf, isExprRoot,
            Expr.get_root_name, he, hfi]
        | some fi =>
          simp [JavascriptParser.gmeiFromData, gmeiSpec, rootPermitted, rootNameOf, isExprRoot,
            Expr.get_root_name, he, hfi]
    · simp [JavascriptParser.gmeiFromData, gmeiSpec, rootPermitted, rootNameOf, isExprRoot,
        Bool.eq_false_iff.mpr he]
  | lit l span =>
    simp [JavascriptParser.gmeiFromData, gmeiSpec, rootPermitted, isExprRoot]
  | member obj prop span =>
    simp [JavascriptParser.gmeiFromData, gmeiSpec, rootPermitted, isExprRoot]
  | tpl exprs span =>
    simp [JavascriptParser.gmeiFromData, gmeiSpec, rootPermitted, isExprRoot]
  | cond t c a span =>
    simp [JavascriptParser.gmeiFromData, gmeiSpec, rootPermitted, isExprRoot]
  | unary arg span =>
    simp [JavascriptParser.gmeiFromData, gmeiSpec, rootPermitted, isExprRoot]
  | bin op l r span =>
    simp [JavascriptParser.gmeiFromData, gmeiSpec, rootPermitted, isExprRoot]
  | array elems span =>
    simp [JavascriptParser.gmeiFromData, gmeiSpec, rootPermitted, isExprRoot]
  | new callee span =>
    simp [JavascriptParser.gmeiFromData, gmeiSpec, rootPermitted, isExprRoot]
  | other span =>
    simp [JavascriptParser.gmeiFromData, gmeiSpec, rootPermitted, isExprRoot]

theorem gmeiSpec_none_iff (p : JavascriptParser) (d : ExtractedMemberExpressionChainData)
    (allowed : AllowedMemberTypes) :
    (gmeiSpec p d allowed = none ↔
      rootPermitted d.object allowed = false ∨ rootNameOf d.object = none ∨
      ∃ rn, rootNameOf d.object = some rn ∧ p.get_free_info_from_variable rn = none) := by
  unfold gmeiSpec
  by_cases hp : rootPermitted d.object allowed = false
  · simp [hp]
  · cases hrn : rootNameOf d.object with
    | none => simp [hp, hrn]
    | some rn =>
      cases hfi : p.get_free_info_from_variable rn with
      | none => simp [hp, hrn, hfi]
      | some fi =>
        cases hobj : d.object <;> simp [hp, hrn, hfi]

/-- C8: the member-expression info equals the claim's description — it
fails exactly when the chain root's kind is not permitted by the
capability flags, the root has no resolvable name, or the root's
free-name lookup fails; on success it is a Call info for a call root
and an Expression info otherwise, carrying the dotted name built from
the resolved root. -/
theorem get_member_expression_info_spec (p : JavascriptParser) (obj : Expr)
    (prop : MemberProp) (span : Span) (allowed : AllowedMemberTypes) :
    p.get_member_expression_info obj prop span allowed =
      gmeiSpec p (extract_member_expression_chain obj prop span) allowed ∧
    (p.get_member_expression_info obj prop span allowed = none ↔
      rootPermitted (extract_member_expression_chain obj prop span).object allowed = false ∨
      rootNameOf (extract_member_expression_chain obj prop span).object = none ∨
      ∃ rn, rootNameOf (extract_member_expression_chain obj prop span).object = some rn ∧
        p.get_free_info_from_variable rn = none) := by
  have he : p.get_member_expression_info obj prop span allowed =
      gmeiSpec p (extract_member_expression_chain obj prop span) allowed :=
    gmeiFromData_eq_spec p _ allowed
  refine ⟨he, ?_⟩
  rw [he]
  exact gmeiSpec_none_iff p _ allowed

/-- C6 witness: the three resolution cases at concrete store states —
unbound x, x tagged while unbound (free name `String "x"`), and x
declared then tagged (free-but-unnamed). -/
theorem get_free_info_cases_witness :
    JavascriptParser.new.get_free_info_from_variable "x" = some ⟨"x", none⟩ ∧
    (JavascriptParser.new.tag_variable "x" "t" none).get_free_info_from_variable "x" =
      some ⟨"x", some ⟨0, 0, some (FreeName.String "x"), some (TagInfo.mk "t" none none)⟩⟩ ∧
    ((JavascriptParser.new.define_variable "x").tag_variable "x" "t"
        none).get_free_info_from_variable "x" = none := by
  refine ⟨?_, ?_, ?_⟩
  · exact (get_free_info_cases JavascriptParser.new "x").1 rfl
  · exact (get_free_info_cases (JavascriptParser.new.tag_variable "x" "t" none) "x").2.1
      ⟨0, 0, some (FreeName.String "x"), some (TagInfo.mk "t" none none)⟩ "x" rfl rfl
  · exact (get_free_info_cases ((JavascriptParser.new.define_variable "x").tag_variable "x"
      "t" none) "x").2.2 ⟨1, 0, some FreeName.True, some (TagInfo.mk "t" none none)⟩ rfl
      (Or.inl rfl)

/-- C7 witness: the dispatch key at the same three concrete store
states. -/
theorem call_hooks_name_str_cases_witness :
    call_hooks_name_str "x" JavascriptParser.new = some "x" ∧
    call_hooks_name_str "x" (JavascriptParser.new.tag_variable "x" "t" none) = some "x" ∧
    call_hooks_name_str "x" ((JavascriptParser.new.define_variable "x").tag_variable "x"
      "t" none) = none := by
  refine ⟨?_, ?_, ?_⟩
  · exact (call_hooks_name_str_cases JavascriptParser.new "x").1 rfl
  · exact (call_hooks_name_str_cases (JavascriptParser.new.tag_variable "x" "t" none) "x").2.1
      ⟨0, 0, some (FreeName.String "x"), some (TagInfo.mk "t" none none)⟩ "x" rfl rfl
  · exact (call_hooks_name_str_cases ((JavascriptParser.new.define_variable "x").tag_variable
      "x" "t" none) "x").2.2 ⟨1, 0, some FreeName.True, some (TagInfo.mk "t" none none)⟩ rfl
      (Or.inl rfl)

/-- C8 witness: a chain whose root is an identifier fails when only the
CallExpression capability is requested. -/
theorem get_member_expression_info_spec_witness :
    JavascriptParser.new.get_member_expression_info chainABCD_obj (.ident "d") ⟨1, 10⟩
      AllowedMemberTypes.CallExpression = none :=
  (get_member_expression_info_spec JavascriptParser.new chainABCD_obj (.ident "d") ⟨1, 10⟩
    AllowedMemberTypes.CallExpression).2.mpr (Or.inl rfl)
